import Mathlib

/-!
# Verification of the compiletest-differ review tool

A shallow embedding of the `compiletest-differ` sources (`src/main.rs`,
`src/app.rs`, `src/view.rs`): an interactive triage tool for failing
compiletest runs.  File-system access is modelled as a map from paths to
optional file contents; Rust panics and `process::exit` become `Option` /
explicit outcome values.
-/

set_option autoImplicit false

namespace CompiletestDiffer

/-! ## Path model

Rust `Path`/`PathBuf` values are modelled as a list of components together
with an absoluteness flag, mirroring the component-based semantics of
`Path::components` that `strip_prefix`, `file_stem`, `with_extension` and
`join` are defined in terms of: repeated separators collapse, `"."`
components are dropped except in leading position of a relative path. -/

structure RsPath where
  isAbs : Bool
  comps : List String
deriving DecidableEq, Repr

/-- Split a character list at every occurrence of a separator character
(the splitter underlying path components and extension handling). -/
def splitAtChar (sep : Char) (cs : List Char) : List (List Char) :=
  match cs with
  | [] => [[]]
  | c :: rest =>
    if c = sep then [] :: splitAtChar sep rest
    else
      match splitAtChar sep rest with
      | [] => [[c]]
      | h :: t => (c :: h) :: t

/-- Join chunks back with a separator character (inverse of `splitAtChar`). -/
def joinWithChar (sep : Char) (parts : List (List Char)) : List Char :=
  match parts with
  | [] => []
  | [p] => p
  | p :: rest => p ++ sep :: joinWithChar sep rest

/-- Parse a Rust path string into its normalized components. -/
def parsePath (s : String) : RsPath :=
  let raw := ((splitAtChar '/' s.data).map (fun l => String.mk l)).filter (fun c => c ≠ "")
  let comps :=
    match raw with
    | [] => []
    | c :: rest => (if c = "." then ["."] else [c]) ++ rest.filter (fun x => x ≠ ".")
  ⟨match s.data with
   | '/' :: _ => true
   | _ => false, comps⟩

/-- `Path::join`: an absolute argument replaces the base path. -/
def RsPath.joinP (a b : RsPath) : RsPath :=
  if b.isAbs then b else ⟨a.isAbs, a.comps ++ b.comps⟩

/-- `Path::file_name`: the last component, unless it is `.` or `..` or absent. -/
def RsPath.fileName (p : RsPath) : Option String :=
  match p.comps.getLast? with
  | none => none
  | some c => if c = "." ∨ c = ".." then none else some c

/-- Stem of a file name: the part before the final dot, except that a name
with no dot, or a leading-dot name with no further dot, is its own stem. -/
def stemOf (name : String) : String :=
  let parts := splitAtChar '.' name.data
  if parts.length ≤ 1 then name
  else if parts.headI = [] ∧ parts.length = 2 then name
  else String.mk (joinWithChar '.' parts.dropLast)

/-- `Path::file_stem`. -/
def RsPath.fileStem (p : RsPath) : Option String :=
  match p.fileName with
  | none => none
  | some n => some (stemOf n)

/-- `Path::with_extension`: rewrite the extension of the final component;
a path without a file name is returned unchanged.  An empty extension
removes the extension, a nonempty one is appended after a dot. -/
def RsPath.withExtension (p : RsPath) (ext : String) : RsPath :=
  match p.fileName with
  | none => p
  | some name =>
      ⟨p.isAbs, p.comps.dropLast ++ [stemOf name ++ (if ext = "" then "" else "." ++ ext)]⟩

/-- `path.strip_prefix("tests/")` at the loader's call site: succeeds exactly
when the path is relative and its first component is `tests`. -/
def RsPath.stripTests (p : RsPath) : Option RsPath :=
  if p.isAbs then none
  else
    match p.comps with
    | "tests" :: rest => some ⟨false, rest⟩
    | _ => none

/-! ## File system model -/

/-- The file system: a path either holds readable text or is absent
(missing, unreadable and non-UTF-8 files are all `none`, matching how the
loader swallows `read_to_string` errors). -/
def FS := RsPath → Option String

/-- `std::fs::write`: overwrite one path with new contents. -/
def FS.write (fs : FS) (p : RsPath) (s : String) : FS :=
  fun q => if q = p then some s else fs q

/-! ## Data model (`src/main.rs`, `src/app.rs`) -/

/-- The two captured output channels of a test. -/
inductive Stream where
  | stderr
  | stdout
deriving DecidableEq, Repr

/-- Run statistics from the event log. -/
structure Stats where
  failed : Nat := 0
  passed : Nat := 0
  ignored : Nat := 0
deriving DecidableEq, Repr

/-- Diff granularity. -/
inductive DiffMode where
  | Line
  | Word
  | Char
deriving DecidableEq, Repr

/-- Layout mode (`view.rs::ShowMode`). -/
inductive ShowMode where
  | Vertical
  | VerticalOnly
  | SideBySide
  | SideBySideOnly
  | RustcArgs (oneline : Bool)
deriving DecidableEq, Repr

/-- Display configuration. -/
structure Config where
  diff_mode : DiffMode := .Line
  show_mode : ShowMode := .Vertical
  hide_help : Bool := false
deriving DecidableEq, Repr

/-- One (test, stream) pairing with a meaningful mismatch (`app.rs::TestData`). -/
structure TestData where
  test_code : String
  actual : String
  expect : String
  stream : Stream
  test_name : String
  rustc_args : String
  expected_path : RsPath
deriving DecidableEq, Repr

/-- Per-stream cache entry (`app.rs::CachedData`). -/
inductive CachedData where
  | Unloaded
  | Missing
  | Present (d : TestData)
deriving DecidableEq, Repr

/-- The per-test pair of cache entries (`app.rs::CachedStreams`). -/
structure CachedStreams where
  stderr : CachedData := .Unloaded
  stdout : CachedData := .Unloaded
deriving DecidableEq, Repr

/-- The session state (`app.rs::App`). -/
structure App where
  running : Bool := false
  config : Config := {}
  prev_view : ShowMode := .Vertical
  current_test : Nat := 0
  current_stream : Stream := .stderr
  stats : Stats := {}
  paths : List String := []
  cached_streams : CachedStreams := {}
  rust_path : RsPath := parsePath "/home/ardi/repos/rust"
  scroll_pos_diff : Nat := 0
  scroll_pos_code : Nat := 0
deriving DecidableEq, Repr

/-! ## Test data loader (`App::load_curr_data`) -/

/-- The paths the loader resolves for the current test identifier; `none`
models the two panics (`strip_prefix(..).expect` and `file_stem().unwrap`). -/
structure LoadPaths where
  test_code_path : RsPath
  expected_stderr_path : RsPath
  expected_stdout_path : RsPath
  actual_stderr_path : RsPath
  actual_stdout_path : RsPath
deriving DecidableEq, Repr

/-- Path resolution of `load_curr_data` (lines 68–85 of `app.rs`). -/
def resolvePaths (rust_path : RsPath) (path_str : String) : Option LoadPaths :=
  let path := parsePath path_str
  let test_code := rust_path.joinP path
  let expected_stderr_path := test_code.withExtension "stderr"
  let expected_stdout_path := test_code.withExtension "stdout"
  match path.stripTests with
  | none => none
  | some target_path =>
    match path.fileStem with
    | none => none
    | some stem =>
      let actual_path :=
        ((((rust_path.joinP (parsePath "build/x86_64-unknown-linux-gnu/test")).joinP
            target_path).withExtension "").joinP (parsePath stem))
      some { test_code_path := test_code
             expected_stderr_path := expected_stderr_path
             expected_stdout_path := expected_stdout_path
             actual_stderr_path := actual_path.withExtension "stderr"
             actual_stdout_path := actual_path.withExtension "stdout" }

/-- Per-stream classification of `load_curr_data` (lines 98–139): note the
Rust operator precedence `a || b && c` = `a ∨ (b ∧ c)`. -/
def classifyStream (test_code path_str : String) (stream : Stream)
    (expected_path : RsPath) (expected actual : Option String) : CachedData :=
  if expected.isSome ∨ (actual.isSome ∧ expected ≠ actual) then
    .Present
      { test_code := test_code
        actual := actual.getD ""
        expect := expected.getD ""
        stream := stream
        test_name := path_str
        rustc_args := "TODO"
        expected_path := expected_path }
  else .Missing

/-- `App::load_curr_data`: resolve paths for the current test, read the five
files, and classify both streams.  `none` models a panic (out-of-bounds
index or one of the two path panics). -/
def App.loadCurrData (a : App) (fs : FS) : Option CachedStreams :=
  match a.paths.get? a.current_test with
  | none => none
  | some path_str =>
    match resolvePaths a.rust_path path_str with
    | none => none
    | some lp =>
      match fs lp.test_code_path with
      | none => some { stderr := .Missing, stdout := .Missing }
      | some test_code =>
        let expected_stderr := fs lp.expected_stderr_path
        let expected_stdout := fs lp.expected_stdout_path
        let actual_stderr := fs lp.actual_stderr_path
        let actual_stdout := fs lp.actual_stdout_path
        some { stderr := classifyStream test_code path_str .stderr
                 lp.expected_stderr_path expected_stderr actual_stderr
               stdout := classifyStream test_code path_str .stdout
                 lp.expected_stdout_path expected_stdout actual_stdout }

/-! ## Session state machine (`App` navigation, request, bless) -/

/-- `App::reset_scroll`. -/
def App.resetScroll (a : App) : App :=
  { a with scroll_pos_code := 0, scroll_pos_diff := 0 }

/-- `App::advance_test`; `none` models the `exit(0)` taken when the new index
reaches the end of the failing-test list. -/
def App.advanceTest (a : App) : Option App :=
  let a := a.resetScroll
  let a := { a with
    current_stream := .stderr
    current_test := a.current_test + 1
    cached_streams := {} }
  if a.current_test = a.paths.length then none else some a

/-- `App::advance_stream`. -/
def App.advanceStream (a : App) : Option App :=
  let a := a.resetScroll
  match a.current_stream with
  | .stderr => some { a with current_stream := .stdout }
  | .stdout => a.advanceTest

/-- `App::previous_test` (`saturating_sub` is `Nat` subtraction). -/
def App.previousTest (a : App) : App :=
  let a := a.resetScroll
  { a with
    current_stream := .stderr
    current_test := a.current_test - 1
    cached_streams := {} }

/-- Possible outcomes of `App::request_curr_test`: the returned `TestData`
together with the mutated session state, normal termination via
`advance_test`'s `exit(0)`, a panic (`unreachable!` or a loader panic), or
fuel exhaustion of the model. -/
inductive ReqResult where
  | found (d : TestData) (a : App)
  | exited
  | panicked
  | outOfFuel
deriving DecidableEq, Repr

/-- `App::request_curr_test`, with explicit fuel for the recursion. -/
def App.requestCurrTest (fuel : Nat) (a : App) (fs : FS) : ReqResult :=
  match fuel with
  | 0 => .outOfFuel
  | fuel + 1 =>
    match a.current_stream with
    | .stderr =>
      match a.cached_streams.stderr with
      | .Unloaded =>
        match a.loadCurrData fs with
        | none => .panicked
        | some cache => App.requestCurrTest fuel { a with cached_streams := cache } fs
      | .Missing => App.requestCurrTest fuel { a with current_stream := .stdout } fs
      | .Present d => .found d a
    | .stdout =>
      match a.cached_streams.stdout with
      | .Missing =>
        match a.advanceTest with
        | none => .exited
        | some a => App.requestCurrTest fuel a fs
      | .Present d => .found d a
      | .Unloaded => .panicked

/-- The cache entry of the active stream (the scrutinee of `App::bless`). -/
def App.currentEntry (a : App) : CachedData :=
  match a.current_stream with
  | .stderr => a.cached_streams.stderr
  | .stdout => a.cached_streams.stdout

/-- `App::bless`: write the actual text over the recorded expected path when
the active entry is `Present`, then `advance_stream`. -/
def App.bless (a : App) (fs : FS) : Option App × FS :=
  let fs :=
    match a.currentEntry with
    | .Present d => fs.write d.expected_path d.actual
    | _ => fs
  (a.advanceStream, fs)

/-- Key events (`crossterm` key codes restricted to what `on_key_event`
distinguishes). -/
inductive KeyCode where
  | esc
  | char (c : Char)
  | other
deriving DecidableEq, Repr

/-- `DiffMode::rotate_next`. -/
def DiffMode.rotateNext : DiffMode → DiffMode
  | .Char => .Word
  | .Word => .Line
  | .Line => .Char

/-- `ShowMode` transition under the `c` (compactness) key. -/
def ShowMode.cycleCompact : ShowMode → ShowMode
  | .SideBySide => .SideBySideOnly
  | .SideBySideOnly => .SideBySide
  | .Vertical => .VerticalOnly
  | .VerticalOnly => .Vertical
  | m => m

/-- `ShowMode` transition under the `s` (orientation) key. -/
def ShowMode.cycleStyle : ShowMode → ShowMode
  | .SideBySide => .Vertical
  | .SideBySideOnly => .VerticalOnly
  | .Vertical => .SideBySide
  | .VerticalOnly => .SideBySideOnly
  | m => m

/-- `App::on_key_event`.  The result pairs the next session state (`none`
when the handler exits the process via `advance_test`) with the possibly
updated file system; only `b` (bless) can change the latter.  The `u16`
scroll increments wrap at `2 ^ 16`. -/
def App.onKeyEvent (a : App) (key : KeyCode) (fs : FS) : Option App × FS :=
  match key with
  | .esc => (some { a with running := false }, fs)
  | .char 'q' => (some { a with running := false }, fs)
  | .char 'd' =>
      (some { a with config := { a.config with diff_mode := a.config.diff_mode.rotateNext } }, fs)
  | .char 'r' =>
      match a.config.show_mode with
      | .RustcArgs oneline =>
          (some { a with
            config := { a.config with show_mode := a.prev_view }
            prev_view := .RustcArgs oneline }, fs)
      | _ =>
          (some { a with
            prev_view := a.config.show_mode
            config := { a.config with show_mode := .RustcArgs false } }, fs)
  | .char 'o' =>
      match a.config.show_mode with
      | .RustcArgs oneline =>
          (some { a with config := { a.config with show_mode := .RustcArgs (!oneline) } }, fs)
      | _ => (some a, fs)
  | .char 'p' =>
      (some { a with
        config := { a.config with show_mode := a.prev_view }
        prev_view := a.config.show_mode }, fs)
  | .char 'h' =>
      (some { a with config := { a.config with hide_help := !a.config.hide_help } }, fs)
  | .char 'b' => a.bless fs
  | .char 'n' => (a.advanceStream, fs)
  | .char 'N' => (some a.previousTest, fs)
  | .char 'j' => (some { a with scroll_pos_diff := (a.scroll_pos_diff + 1) % 2 ^ 16 }, fs)
  | .char 'k' => (some { a with scroll_pos_diff := a.scroll_pos_diff - 1 }, fs)
  | .char 'J' => (some { a with scroll_pos_code := (a.scroll_pos_code + 1) % 2 ^ 16 }, fs)
  | .char 'K' => (some { a with scroll_pos_code := a.scroll_pos_code - 1 }, fs)
  | .char 'c' =>
      (some { a with config := { a.config with show_mode := a.config.show_mode.cycleCompact } }, fs)
  | .char 's' =>
      (some { a with config := { a.config with show_mode := a.config.show_mode.cycleStyle } }, fs)
  | .char _ => (some a, fs)
  | .other => (some a, fs)

/-! ## Event-log digest (`main.rs::parse_events`) -/

/-- A parsed event-log record (`main.rs::Item`). -/
inductive Item where
  | test (name event : String)
  | suite (failed passed ignored : Nat)
deriving DecidableEq, Repr

/-- `str::split_once("[ui] ")`: the part after the first occurrence of the
marker, when the marker occurs. -/
def splitOnceUiMarker (name : String) : Option String :=
  match name.splitOn "[ui] " with
  | [] => none
  | [_] => none
  | _ :: rest => some (String.intercalate "[ui] " rest)

/-- Accumulator of the `parse_events` loop. -/
structure ParseState where
  failed : List String := []
  stats : Option Stats := none
  ok_count : Nat := 0
deriving DecidableEq, Repr

/-- One iteration of the `parse_events` loop. -/
def processEvent (st : ParseState) (e : Item) : ParseState :=
  match e with
  | .test name event =>
    if event ≠ "failed" then { st with ok_count := st.ok_count + 1 }
    else
      match splitOnceUiMarker name with
      | none => st
      | some path => { st with failed := st.failed ++ [path] }
  | .suite failed passed ignored =>
      { st with stats := some { failed := failed, passed := passed, ignored := ignored } }

/-- `main.rs::parse_events`.  The input is the per-line parse result of the
event log (`none` for a malformed line, mirroring `filter_map` over
`serde_json::from_str`); the first successfully parsed record is skipped. -/
def parseEvents (lines : List (Option Item)) : List String × Stats :=
  let items := (lines.filterMap id).drop 1
  let r := items.foldl processEvent {}
  let stats := r.stats.getD { failed := r.failed.length, passed := r.ok_count, ignored := 0 }
  (r.failed, stats)

/-! ## View layout engine (`src/view.rs`)

`ratatui`'s rectangle type and its 50/50 `Layout` splits are external
rendering primitives; they are modelled by exact halving (floor for the
first region, remainder for the second). -/

/-- A screen rectangle (`ratatui::layout::Rect`). -/
structure Rect where
  x : Nat
  y : Nat
  width : Nat
  height : Nat
deriving DecidableEq, Repr

/-- Model of a vertical `[Percentage(50), Percentage(50)]` layout split. -/
def splitVertical50 (r : Rect) : Rect × Rect :=
  (⟨r.x, r.y, r.width, r.height / 2⟩,
   ⟨r.x, r.y + r.height / 2, r.width, r.height - r.height / 2⟩)

/-- Model of a horizontal `[Percentage(50), Percentage(50)]` layout split. -/
def splitHorizontal50 (r : Rect) : Rect × Rect :=
  (⟨r.x, r.y, r.width / 2, r.height⟩,
   ⟨r.x + r.width / 2, r.y, r.width - r.width / 2, r.height⟩)

/-- The computed partition of the main region (`view.rs::DiffShow`). -/
inductive DiffShow where
  | Vertical (code diff : Rect)
  | VerticalOnly (diff : Rect)
  | SideBySide (code rhs lhs : Rect)
  | SideBySideOnly (rhs lhs : Rect)
  | RustcArgs (args : Rect) (oneline : Bool)
deriving DecidableEq, Repr

/-- `DiffShow::new`: partition the main region according to the mode. -/
def DiffShow.new (mode : ShowMode) (rect : Rect) : DiffShow :=
  match mode with
  | .SideBySide =>
    let layout := splitVertical50 rect
    let diff_layout := splitHorizontal50 layout.2
    .SideBySide layout.1 diff_layout.1 diff_layout.2
  | .SideBySideOnly =>
    let diff_layout := splitHorizontal50 rect
    .SideBySideOnly diff_layout.1 diff_layout.2
  | .Vertical =>
    let layout := splitVertical50 rect
    .Vertical layout.1 layout.2
  | .VerticalOnly => .VerticalOnly rect
  | .RustcArgs oneline => .RustcArgs rect oneline

/-- The panel titles `App::draw` renders into each sub-rectangle of the main
region (the `mk_paragraph` title / `render_widget` target pairs). -/
def drawPanels (mode : ShowMode) (rect : Rect) : List (String × Rect) :=
  match DiffShow.new mode rect with
  | .SideBySide code rhs lhs => [("code", code), ("expected", lhs), ("actual", rhs)]
  | .SideBySideOnly rhs lhs => [("expected", lhs), ("actual", rhs)]
  | .Vertical code diff => [("code", code), ("diff", diff)]
  | .VerticalOnly diff => [("diff", diff)]
  | .RustcArgs args _ => [("rustc arguments", args)]

/-! ## Diff rendering pipeline (`app.rs::diff_vertical` and friends)

The `similar` text-diff library is an external collaborator: it is modelled
as an abstract engine producing tagged change sequences for each alignment
entry point the code uses. -/

/-- Change tags of the diff engine (`similar::ChangeTag`). -/
inductive ChangeTag where
  | Equal
  | Delete
  | Insert
deriving DecidableEq, Repr

/-- One tagged segment produced by the diff engine. -/
structure Change where
  tag : ChangeTag
  value : String
deriving DecidableEq, Repr

/-- Styles applied to rendered spans. -/
inductive SpanStyle where
  | plain
  | red
  | green
  | greenBold
deriving DecidableEq, Repr

/-- A rendered fragment with a style. -/
abbrev Span := String × SpanStyle

/-- The external diff engine: the four alignment entry points the code
calls (`TextDiff::from_chars` / `from_words` / `from_lines`, and
`TextDiffConfig::default().newline_terminated(true).diff_words`). -/
structure DiffEngine where
  fromChars : String → String → List Change
  fromWords : String → String → List Change
  fromLines : String → String → List Change
  diffWordsNT : String → String → List Change

/-- `diff_vertical_linewise`: line alignment distributed over the two
panels; equal lines appear on both sides, deleted lines (red) only on the
left result, inserted lines (bold green) only on the right result. -/
def diff_vertical_linewise (e : DiffEngine) (lhs rhs : String) : List Span × List Span :=
  let r := (e.fromLines lhs rhs).foldl
    (fun (acc : List Span × List Span) c =>
      match c.tag with
      | .Equal => (acc.1 ++ [(c.value, .plain)], acc.2 ++ [(c.value, .plain)])
      | .Delete => (acc.1 ++ [(c.value, .red)], acc.2)
      | .Insert => (acc.1, acc.2 ++ [(c.value, .greenBold)]))
    ([], [])
  (r.1, r.2)

/-- Body of `diff_vertical` after the early `Line` return: the first `diff`
binding is immediately shadowed by the unconditional
`newline_terminated(true).diff_words` call, and the final pair is returned
in `(rhs, lhs)` order. -/
def diff_vertical_tail (e : DiffEngine) (firstDiff : List Change)
    (lhs rhs : String) : List Span × List Span :=
  let diff := firstDiff
  let diff := e.diffWordsNT lhs rhs
  let r := diff.foldl
    (fun (acc : List Span × List Span) c =>
      match c.tag with
      | .Equal => (acc.1 ++ [(c.value, .plain)], acc.2 ++ [(c.value, .plain)])
      | .Delete => (acc.1 ++ [(c.value, .red)], acc.2)
      | .Insert => (acc.1, acc.2 ++ [(c.value, .green)]))
    ([], [])
  (r.2, r.1)

/-- `app.rs::diff_vertical`: the split-view diff shaping; the caller binds
the result as `(expect, actual)`. -/
def diff_vertical (e : DiffEngine) (lhs rhs : String) (diffmode : DiffMode) :
    List Span × List Span :=
  match diffmode with
  | .Line => diff_vertical_linewise e lhs rhs
  | .Char => diff_vertical_tail e (e.fromChars lhs rhs) lhs rhs
  | .Word => diff_vertical_tail e (e.fromWords lhs rhs) lhs rhs

/-! ## Helper lemmas: stream classification -/

theorem classifyStream_present_iff (tc ps : String) (st : Stream) (ep : RsPath)
    (e ac : Option String) :
    (∃ d, classifyStream tc ps st ep e ac = .Present d) ↔ (e.isSome ∨ ac.isSome) := by
  unfold classifyStream
  by_cases h : e.isSome ∨ (ac.isSome ∧ e ≠ ac)
  · rw [if_pos h]
    constructor
    · intro _
      rcases h with h | h
      · exact Or.inl h
      · exact Or.inr h.1
    · intro _
      exact ⟨_, rfl⟩
  · rw [if_neg h]
    constructor
    · rintro ⟨d, hd⟩
      exact absurd hd (by simp)
    · intro hor
      exfalso
      apply h
      rcases hor with he | ha
      · exact Or.inl he
      · by_cases he : e.isSome
        · exact Or.inl he
        · refine Or.inr ⟨ha, ?_⟩
          rw [Option.not_isSome_iff_eq_none] at he
          rw [Option.isSome_iff_exists] at ha
          obtain ⟨v, hv⟩ := ha
          rw [he, hv]
          simp

theorem classifyStream_missing_iff (tc ps : String) (st : Stream) (ep : RsPath)
    (e ac : Option String) :
    classifyStream tc ps st ep e ac = .Missing ↔ (e = none ∧ ac = none) := by
  constructor
  · intro h
    by_contra hne
    have : e.isSome ∨ ac.isSome := by
      rcases Option.eq_none_or_eq_some e with he | ⟨v, hv⟩
      · rcases Option.eq_none_or_eq_some ac with ha | ⟨w, hw⟩
        · exact absurd ⟨he, ha⟩ hne
        · exact Or.inr (by rw [hw]; rfl)
      · exact Or.inl (by rw [hv]; rfl)
    obtain ⟨d, hd⟩ := (classifyStream_present_iff tc ps st ep e ac).mpr this
    rw [h] at hd
    exact absurd hd (by simp)
  · rintro ⟨he, ha⟩
    subst he
    subst ha
    rfl

/-- Any TestData produced by the classifier records the loaded contents
(absent files read as the empty string) and the expected-output path. -/
theorem classifyStream_present_eq (tc ps : String) (st : Stream) (ep : RsPath)
    (e ac : Option String) (d : TestData)
    (h : classifyStream tc ps st ep e ac = .Present d) :
    d.expect = e.getD "" ∧ d.actual = ac.getD "" ∧ d.expected_path = ep ∧ d.test_code = tc := by
  unfold classifyStream at h
  by_cases hc : e.isSome ∨ (ac.isSome ∧ e ≠ ac)
  · rw [if_pos hc] at h
    cases h
    exact ⟨rfl, rfl, rfl, rfl⟩
  · rw [if_neg hc] at h
    exact absurd h (by simp)

/-! ## Claim C1 -/

namespace C1x

/-- Concrete session for C1: a single failing UI test. -/
def app : App := { paths := ["tests/ui/foo.rs"] }

/-- File system for the counterexample: byte-identical expected and actual
stderr output (both read as `"x"`), readable source. -/
def fsEq : FS := fun p =>
  if p.comps.getLast? = some "foo.stderr" then some "x"
  else if p.comps.getLast? = some "foo.rs" then some "code" else none

/-- The TestData the loader actually builds in the counterexample run. -/
def dEq : TestData :=
  { test_code := "code"
    actual := "x"
    expect := "x"
    stream := .stderr
    test_name := "tests/ui/foo.rs"
    rustc_args := "TODO"
    expected_path := ⟨true, ["home", "ardi", "repos", "rust", "tests", "ui", "foo.stderr"]⟩ }

/-- The resolved paths of the test `tests/ui/foo.rs`. -/
def lp : LoadPaths :=
  { test_code_path := ⟨true, ["home", "ardi", "repos", "rust", "tests", "ui", "foo.rs"]⟩
    expected_stderr_path := ⟨true, ["home", "ardi", "repos", "rust", "tests", "ui", "foo.stderr"]⟩
    expected_stdout_path := ⟨true, ["home", "ardi", "repos", "rust", "tests", "ui", "foo.stdout"]⟩
    actual_stderr_path := ⟨true, ["home", "ardi", "repos", "rust", "build",
      "x86_64-unknown-linux-gnu", "test", "ui", "foo", "foo.stderr"]⟩
    actual_stdout_path := ⟨true, ["home", "ardi", "repos", "rust", "build",
      "x86_64-unknown-linux-gnu", "test", "ui", "foo", "foo.stdout"]⟩ }

/-- The cache the loader computes in the counterexample run. -/
def cacheEq : CachedStreams := { stderr := .Present dEq, stdout := .Missing }

end C1x

/-- C1 counterexample: for the test `tests/ui/foo.rs` with readable source,
both the expected and the actual stderr file exist and hold the identical
text `"x"`, yet the loader classifies the stderr stream `Present` (the
Rust condition `e.is_some() || a.is_some() && e != a` groups as
`e.is_some() ∨ (a.is_some() ∧ e ≠ a)`, so the equality of the recorded
outputs is never consulted when the expected file exists); the claim
requires `Missing` here. -/
theorem c1_counterexample :
    C1x.fsEq C1x.lp.expected_stderr_path = some "x" ∧
    C1x.fsEq C1x.lp.actual_stderr_path = some "x" ∧
    C1x.app.loadCurrData C1x.fsEq = some C1x.cacheEq := by
  refine ⟨rfl, rfl, ?_⟩
  rfl

/-- C1 (amended): for every test whose panics do not fire and whose source
file is readable, and for each stream independently, the loader classifies
the stream `Present` exactly when at least one of the expected or actual
output files is readable (regardless of whether their contents agree), and
`Missing` exactly when both are absent. -/
theorem c1_load_classification (a : App) (fs : FS) (path_str : String)
    (lp : LoadPaths) (cache : CachedStreams)
    (hpath : a.paths.get? a.current_test = some path_str)
    (hlp : resolvePaths a.rust_path path_str = some lp)
    (hsrc : (fs lp.test_code_path).isSome)
    (hload : a.loadCurrData fs = some cache) :
    ((∃ d, cache.stderr = .Present d) ↔
        ((fs lp.expected_stderr_path).isSome ∨ (fs lp.actual_stderr_path).isSome)) ∧
    (cache.stderr = .Missing ↔
        (fs lp.expected_stderr_path = none ∧ fs lp.actual_stderr_path = none)) ∧
    ((∃ d, cache.stdout = .Present d) ↔
        ((fs lp.expected_stdout_path).isSome ∨ (fs lp.actual_stdout_path).isSome)) ∧
    (cache.stdout = .Missing ↔
        (fs lp.expected_stdout_path = none ∧ fs lp.actual_stdout_path = none)) := by
  unfold App.loadCurrData at hload
  split at hload
  next h => rw [hpath] at h; cases h
  next ps h =>
    rw [hpath] at h
    injection h with h
    subst h
    split at hload
    next h2 => rw [hlp] at h2; cases h2
    next lp2 h2 =>
      rw [hlp] at h2
      injection h2 with h2
      subst h2
      split at hload
      next h3 => rw [h3] at hsrc; simp at hsrc
      next tc h3 =>
        simp only [Option.some.injEq] at hload
        subst hload
        refine ⟨?_, ?_, ?_, ?_⟩
        · exact classifyStream_present_iff _ _ _ _ _ _
        · exact classifyStream_missing_iff _ _ _ _ _ _
        · exact classifyStream_present_iff _ _ _ _ _ _
        · exact classifyStream_missing_iff _ _ _ _ _ _

/-- C1 witness: the amended classification theorem applied to the concrete
run of `tests/ui/foo.rs`. -/
theorem c1_load_classification_witness :
    ((∃ d, C1x.cacheEq.stderr = .Present d) ↔
        ((C1x.fsEq C1x.lp.expected_stderr_path).isSome ∨
          (C1x.fsEq C1x.lp.actual_stderr_path).isSome)) ∧
    (C1x.cacheEq.stderr = .Missing ↔
        (C1x.fsEq C1x.lp.expected_stderr_path = none ∧
          C1x.fsEq C1x.lp.actual_stderr_path = none)) ∧
    ((∃ d, C1x.cacheEq.stdout = .Present d) ↔
        ((C1x.fsEq C1x.lp.expected_stdout_path).isSome ∨
          (C1x.fsEq C1x.lp.actual_stdout_path).isSome)) ∧
    (C1x.cacheEq.stdout = .Missing ↔
        (C1x.fsEq C1x.lp.expected_stdout_path = none ∧
          C1x.fsEq C1x.lp.actual_stdout_path = none)) :=
  c1_load_classification C1x.app C1x.fsEq "tests/ui/foo.rs" C1x.lp C1x.cacheEq rfl rfl rfl rfl

/-! ## Claim C10 -/

namespace C10x

/-- Concrete session for C10: a failing-test identifier outside `tests/`. -/
def app : App := { paths := ["nottests/foo.rs"] }

/-- An empty file system. -/
def fs : FS := fun _ => none

end C10x

/-- C10 counterexample: the identifier `"tests"` does not begin with the
literal prefix `"tests/"`, yet the loader does not panic: `strip_prefix`
compares `Path` components, so stripping `tests/` from `tests` succeeds
(with an empty remainder) and the load classifies both streams. -/
theorem c10_counterexample :
    "tests".startsWith "tests/" = false ∧
    App.loadCurrData { paths := ["tests"] } (fun _ => none) =
      some { stderr := .Missing, stdout := .Missing } := by
  constructor
  · decide
  · rfl

/-- C10 (amended): for an in-bounds current test, loading panics (rather
than classifying the streams) exactly when the component-wise strip of the
`tests/` prefix fails (the identifier is absolute or its first path
component is not `tests`) or the identifier has no file stem. -/
theorem c10_load_panics_iff (a : App) (fs : FS) (path_str : String)
    (hpath : a.paths.get? a.current_test = some path_str) :
    a.loadCurrData fs = none ↔
      ((parsePath path_str).stripTests = none ∨ (parsePath path_str).fileStem = none) := by
  simp only [App.loadCurrData, hpath]
  unfold resolvePaths
  cases hstrip : (parsePath path_str).stripTests with
  | none => simp [hstrip]
  | some target =>
    simp only [hstrip]
    cases hstem : (parsePath path_str).fileStem with
    | none => simp [hstrip, hstem]
    | some stem =>
      simp only [hstem]
      refine iff_of_false ?_ (by simp [hstrip, hstem])
      split <;> simp

/-- C10 witness: the amended panic condition evaluated on the identifier
`nottests/foo.rs`, whose first component is not `tests`. -/
theorem c10_load_panics_iff_witness :
    C10x.app.loadCurrData C10x.fs = none ↔
      ((parsePath "nottests/foo.rs").stripTests = none ∨
        (parsePath "nottests/foo.rs").fileStem = none) :=
  c10_load_panics_iff C10x.app C10x.fs "nottests/foo.rs" rfl

/-! ## Claim C7 -/

/-- C7 counterexample: on a 100×100 main region in `SideBySide` mode the
code panel occupies the top half and the expected text is rendered into the
bottom-right quarter, while the claim puts the code panel in the lower half
and the expected text in the top-left. -/
theorem c7_counterexample :
    drawPanels .SideBySide ⟨0, 0, 100, 100⟩ =
      [("code", ⟨0, 0, 100, 50⟩), ("expected", ⟨50, 50, 50, 50⟩), ("actual", ⟨0, 50, 50, 50⟩)] ∧
    drawPanels .SideBySide ⟨0, 0, 100, 100⟩ ≠
      [("expected", ⟨0, 0, 50, 50⟩), ("actual", ⟨50, 0, 50, 50⟩), ("code", ⟨0, 50, 100, 50⟩)] := by
  constructor
  · rfl
  · decide

/-- C7 (amended): in `SideBySide` layout mode the top 50 % of the main
region holds the code panel, and the lower 50 % is split horizontally with
the actual text on the left and the expected text on the right. -/
theorem c7_sidebyside_layout (r : Rect) :
    drawPanels .SideBySide r =
      [("code", ⟨r.x, r.y, r.width, r.height / 2⟩),
       ("expected", ⟨r.x + r.width / 2, r.y + r.height / 2,
          r.width - r.width / 2, r.height - r.height / 2⟩),
       ("actual", ⟨r.x, r.y + r.height / 2, r.width / 2, r.height - r.height / 2⟩)] := rfl

/-! ## Claim C8 -/

/-- C8: in the split views, `Char` granularity produces exactly the output
of `Word` granularity — the first `TextDiff` binding (the only place the
granularity is consulted) is shadowed by an unconditional word-level
diff — and the two span sequences are returned swapped: on the concrete
run with expected `"a"` and actual `"b"`, the deleted fragment `"a"` ends
up in the second component (rendered into the actual panel) and the
inserted fragment `"b"` in the first (rendered into the expected panel). -/
theorem c8_char_granularity_is_word_and_sides_swapped :
    (∀ (e : DiffEngine) (lhs rhs : String),
        diff_vertical e lhs rhs .Char = diff_vertical e lhs rhs .Word) ∧
    diff_vertical
        { fromChars := fun _ _ => [⟨.Delete, "a"⟩, ⟨.Insert, "b"⟩]
          fromWords := fun _ _ => []
          fromLines := fun _ _ => []
          diffWordsNT := fun _ _ => [⟨.Delete, "a"⟩, ⟨.Insert, "b"⟩] }
        "a" "b" .Char =
      ([("b", .green)], [("a", .red)]) := by
  constructor
  · intro e lhs rhs
    rfl
  · rfl

/-! ## Claim C5 -/

/-- Spec-side predicate: a `test` record that failed and whose name contains
the UI-test marker. -/
def specIsFailedUiTest : Item → Bool
  | .test name event => decide (event = "failed") && (splitOnceUiMarker name).isSome
  | .suite _ _ _ => false

/-- Spec-side predicate: a `test` record whose event is not `failed`. -/
def specIsNonFailedTest : Item → Bool
  | .test _ event => decide (event ≠ "failed")
  | .suite _ _ _ => false

/-- Spec-side extraction: the counts carried by one record. -/
def suiteStatsOf : Item → Option Stats
  | .suite f p i => some { failed := f, passed := p, ignored := i }
  | _ => none

/-- Spec-side extraction: the counts of the last `suite` record, if any. -/
def specLastSuiteStats : List Item → Option Stats
  | [] => none
  | e :: rest =>
    match specLastSuiteStats rest with
    | some st => some st
    | none => suiteStatsOf e

theorem processEvent_foldl (items : List Item) (st : ParseState) :
    (items.foldl processEvent st).failed.length =
        st.failed.length + items.countP specIsFailedUiTest ∧
    (items.foldl processEvent st).ok_count =
        st.ok_count + items.countP specIsNonFailedTest ∧
    (items.foldl processEvent st).stats =
        ((specLastSuiteStats items).orElse (fun _ => st.stats)) := by
  induction items generalizing st with
  | nil => simp [specLastSuiteStats, Option.orElse]
  | cons e rest ih =>
    obtain ⟨ih1, ih2, ih3⟩ := ih (processEvent st e)
    rw [List.foldl_cons]
    refine ⟨?_, ?_, ?_⟩
    · rw [ih1, List.countP_cons]
      have : (processEvent st e).failed.length =
          st.failed.length + (if specIsFailedUiTest e then 1 else 0) := by
        cases e with
        | test name event =>
          by_cases hev : event = "failed"
          · subst hev
            unfold processEvent specIsFailedUiTest
            cases hm : splitOnceUiMarker name <;> simp [hm]
          · simp [processEvent, specIsFailedUiTest, hev]
        | suite f p i => simp [processEvent, specIsFailedUiTest]
      omega
    · rw [ih2, List.countP_cons]
      have : (processEvent st e).ok_count =
          st.ok_count + (if specIsNonFailedTest e then 1 else 0) := by
        cases e with
        | test name event =>
          by_cases hev : event = "failed"
          · subst hev
            unfold processEvent specIsNonFailedTest
            cases hm : splitOnceUiMarker name <;> simp [hm]
          · simp [processEvent, specIsNonFailedTest, hev]
        | suite f p i => simp [processEvent, specIsNonFailedTest]
      omega
    · rw [ih3]
      show _ = (match specLastSuiteStats rest with
        | some st => some st
        | none => suiteStatsOf e).orElse _
      cases hrest : specLastSuiteStats rest with
      | some x => simp [Option.orElse]
      | none =>
        cases e with
        | test name event =>
          simp only [Option.orElse, suiteStatsOf]
          by_cases hev : event = "failed"
          · subst hev
            unfold processEvent
            cases hm : splitOnceUiMarker name <;> simp [hm]
          · simp [processEvent, hev]
        | suite f p i => simp [processEvent, suiteStatsOf, Option.orElse]

/-- C5 (confirmed): for every event log (modelled as the per-line parse
results, malformed lines parsing to `none`), the failing-test list length
equals the number of failed `test` records carrying the `[ui] ` marker
among the records after the discarded header record, and the run statistics
come from the (last) `suite` record when one is present, falling back to
`(failed = list length, passed = non-failed test records, ignored = 0)`. -/
theorem c5_parse_events (lines : List (Option Item)) :
    (parseEvents lines).1.length =
        ((lines.filterMap id).drop 1).countP specIsFailedUiTest ∧
    (parseEvents lines).2 =
        ((specLastSuiteStats ((lines.filterMap id).drop 1)).getD
          { failed := ((lines.filterMap id).drop 1).countP specIsFailedUiTest
            passed := ((lines.filterMap id).drop 1).countP specIsNonFailedTest
            ignored := 0 }) := by
  obtain ⟨h1, h2, h3⟩ := processEvent_foldl ((lines.filterMap id).drop 1) {}
  unfold parseEvents
  constructor
  · simpa using h1
  · simp only [h3]
    cases hls : specLastSuiteStats ((lines.filterMap id).drop 1) with
    | some x => simp [Option.orElse]
    | none =>
      simp only [Option.orElse, Option.getD_none, Option.getD]
      simp only [ParseState.stats] at h3
      have h1' : (((lines.filterMap id).drop 1).foldl processEvent {}).failed.length =
          ((lines.filterMap id).drop 1).countP specIsFailedUiTest := by simpa using h1
      have h2' : (((lines.filterMap id).drop 1).foldl processEvent {}).ok_count =
          ((lines.filterMap id).drop 1).countP specIsNonFailedTest := by simpa using h2
      rw [h1', h2']

/-! ## Claim C6 -/

/-- The two test-changing navigation commands. -/
inductive NavOp where
  | adv
  | prev
deriving DecidableEq, Repr

/-- Apply one navigation command (`none` = the session ended). -/
def App.applyNav (a : App) : NavOp → Option App
  | .adv => a.advanceTest
  | .prev => some a.previousTest

/-- Apply a sequence of navigation commands. -/
def App.applyNavs (a : App) : List NavOp → Option App
  | [] => some a
  | op :: rest =>
    match a.applyNav op with
    | none => none
    | some a2 => a2.applyNavs rest

theorem advanceTest_eq (a : App) :
    a.advanceTest =
      if a.current_test + 1 = a.paths.length then none
      else some { a with current_stream := .stderr, current_test := a.current_test + 1,
                         cached_streams := {}, scroll_pos_diff := 0, scroll_pos_code := 0 } := rfl

theorem previousTest_eq (a : App) :
    a.previousTest =
      { a with current_stream := .stderr, current_test := a.current_test - 1,
               cached_streams := {}, scroll_pos_diff := 0, scroll_pos_code := 0 } := rfl

theorem applyNav_preserves (a a2 : App) (op : NavOp)
    (hlt : a.current_test < a.paths.length)
    (h : a.applyNav op = some a2) :
    a2.current_test < a2.paths.length ∧ a2.current_stream = .stderr ∧
    a2.cached_streams = {} ∧ a2.paths = a.paths := by
  cases op with
  | adv =>
    unfold App.applyNav at h
    rw [advanceTest_eq] at h
    by_cases hend : a.current_test + 1 = a.paths.length
    · rw [if_pos hend] at h
      cases h
    · rw [if_neg hend] at h
      injection h with h
      subst h
      refine ⟨?_, rfl, rfl, rfl⟩
      show a.current_test + 1 < a.paths.length
      omega
  | prev =>
    unfold App.applyNav at h
    injection h with h
    subst h
    refine ⟨?_, rfl, rfl, rfl⟩
    show a.current_test - 1 < a.paths.length
    omega

theorem applyNavs_preserves (ops : List NavOp) (a a2 : App)
    (hlt : a.current_test < a.paths.length)
    (h : a.applyNavs ops = some a2) :
    a2.current_test < a2.paths.length ∧ a2.paths = a.paths ∧
    (ops ≠ [] → a2.current_stream = .stderr ∧ a2.cached_streams = {}) := by
  induction ops generalizing a with
  | nil =>
    unfold App.applyNavs at h
    injection h with h
    subst h
    exact ⟨hlt, rfl, by simp⟩
  | cons op rest ih =>
    unfold App.applyNavs at h
    cases hstep : a.applyNav op with
    | none => rw [hstep] at h; cases h
    | some a3 =>
      rw [hstep] at h
      obtain ⟨h1, h2, h3, h4⟩ := applyNav_preserves a a3 op hlt hstep
      obtain ⟨g1, g2, g3⟩ := ih a3 h1 h
      refine ⟨g1, g2.trans h4, fun _ => ?_⟩
      rcases rest with _ | ⟨op2, rest2⟩
      · unfold App.applyNavs at h
        injection h with h
        subst h
        exact ⟨h2, h3⟩
      · exact g3 (by simp)

/-- C6 (confirmed): after any nonempty sequence of `advance_test` /
`previous_test` commands starting from a running session (one whose index
is inside the failing-test list), a surviving session satisfies
`current_test ≤ len(paths)` (`advance_test` ends the session when the index
reaches the length, `previous_test` saturates at zero), the current stream
is `Stderr`, and both cache entries of the new position are `Unloaded`. -/
theorem c6_navigation_invariant (a : App) (op0 : NavOp) (ops : List NavOp) (a2 : App)
    (hrun : a.current_test < a.paths.length)
    (h : a.applyNavs (op0 :: ops) = some a2) :
    a2.current_test ≤ a.paths.length ∧ a2.current_stream = .stderr ∧
    a2.cached_streams = { stderr := .Unloaded, stdout := .Unloaded } := by
  obtain ⟨g1, g2, g3⟩ := applyNavs_preserves (op0 :: ops) a a2 hrun h
  obtain ⟨s1, s2⟩ := g3 (by simp)
  rw [g2] at g1
  exact ⟨le_of_lt g1, s1, s2⟩

namespace C6x

/-- Concrete session for C6: two failing tests, index 0. -/
def app : App := { paths := ["tests/a.rs", "tests/b.rs"] }

/-- The state after `previous_test` followed by `advance_test`. -/
def app2 : App := { paths := ["tests/a.rs", "tests/b.rs"], current_test := 1 }

end C6x

/-- C6 witness: the navigation invariant after `previous_test` then
`advance_test` on a two-test session. -/
theorem c6_navigation_invariant_witness :
    C6x.app2.current_test ≤ C6x.app.paths.length ∧ C6x.app2.current_stream = .stderr ∧
    C6x.app2.cached_streams = { stderr := .Unloaded, stdout := .Unloaded } :=
  c6_navigation_invariant C6x.app .prev [.adv] C6x.app2 (by decide) rfl

/-! ## Claim C3 -/

/-- C3 (confirmed): a bless on a `Present` active entry rewrites exactly the
recorded expected-output file with the actual text and performs
`advance_stream`; on a non-`Present` entry it changes no file and still
performs `advance_stream`; and no other operator command ever modifies the
file system. -/
theorem c3_bless_single_write (a : App) (fs : FS) :
    (∀ d, a.currentEntry = .Present d →
        (a.bless fs).2 = FS.write fs d.expected_path d.actual ∧
        (∀ p, p ≠ d.expected_path → (a.bless fs).2 p = fs p) ∧
        (a.bless fs).1 = a.advanceStream) ∧
    ((∀ d, a.currentEntry ≠ .Present d) →
        (a.bless fs).2 = fs ∧ (a.bless fs).1 = a.advanceStream) ∧
    (∀ key, key ≠ KeyCode.char 'b' → (a.onKeyEvent key fs).2 = fs) := by
  refine ⟨?_, ?_, ?_⟩
  · intro d h
    refine ⟨?_, ?_, rfl⟩
    · show (a.bless fs).2 = _
      unfold App.bless
      rw [h]
    · intro p hp
      unfold App.bless
      rw [h]
      show FS.write fs d.expected_path d.actual p = fs p
      unfold FS.write
      rw [if_neg hp]
  · intro h
    cases hc : a.currentEntry with
    | Unloaded => exact ⟨by unfold App.bless; rw [hc], rfl⟩
    | Missing => exact ⟨by unfold App.bless; rw [hc], rfl⟩
    | Present d => exact absurd hc (h d)
  · intro key hkey
    unfold App.onKeyEvent
    split <;> first
      | rfl
      | (split <;> rfl)
      | exact absurd rfl hkey

namespace C3x

/-- Concrete TestData for the C3 witness. -/
def d : TestData :=
  { test_code := "c"
    actual := "out"
    expect := ""
    stream := .stderr
    test_name := "t"
    rustc_args := "TODO"
    expected_path := ⟨false, ["e"]⟩ }

/-- Session whose active (stderr) entry is `Present`. -/
def app : App := { cached_streams := { stderr := .Present d, stdout := .Unloaded } }

/-- An empty file system. -/
def fs : FS := fun _ => none

end C3x

/-- C3 witness: blessing the concrete `Present` entry writes its recorded
expected path, and a non-bless key (`j`) leaves the file system intact. -/
theorem c3_bless_single_write_witness :
    (C3x.app.bless C3x.fs).2 = FS.write C3x.fs C3x.d.expected_path C3x.d.actual ∧
    (C3x.app.onKeyEvent (.char 'j') C3x.fs).2 = C3x.fs :=
  ⟨((c3_bless_single_write C3x.app C3x.fs).1 C3x.d rfl).1,
   (c3_bless_single_write C3x.app C3x.fs).2.2 (.char 'j') (by decide)⟩

/-! ## Single-step equations for `request_curr_test` -/

theorem request_step_stderr_unloaded (fuel : Nat) (a : App) (fs : FS)
    (hs : a.current_stream = .stderr) (hc : a.cached_streams.stderr = .Unloaded) :
    App.requestCurrTest (fuel + 1) a fs =
      (match a.loadCurrData fs with
       | none => .panicked
       | some cache => App.requestCurrTest fuel { a with cached_streams := cache } fs) := by
  simp only [App.requestCurrTest]
  rw [hs, hc]

theorem request_step_stderr_missing (fuel : Nat) (a : App) (fs : FS)
    (hs : a.current_stream = .stderr) (hc : a.cached_streams.stderr = .Missing) :
    App.requestCurrTest (fuel + 1) a fs =
      App.requestCurrTest fuel { a with current_stream := .stdout } fs := by
  simp only [App.requestCurrTest]
  rw [hs, hc]

theorem request_step_stderr_present (fuel : Nat) (a : App) (fs : FS) (d : TestData)
    (hs : a.current_stream = .stderr) (hc : a.cached_streams.stderr = .Present d) :
    App.requestCurrTest (fuel + 1) a fs = .found d a := by
  simp only [App.requestCurrTest]
  rw [hs, hc]

theorem request_step_stdout_missing (fuel : Nat) (a : App) (fs : FS)
    (hs : a.current_stream = .stdout) (hc : a.cached_streams.stdout = .Missing) :
    App.requestCurrTest (fuel + 1) a fs =
      (match a.advanceTest with
       | none => .exited
       | some a2 => App.requestCurrTest fuel a2 fs) := by
  simp only [App.requestCurrTest]
  rw [hs, hc]

theorem request_step_stdout_present (fuel : Nat) (a : App) (fs : FS) (d : TestData)
    (hs : a.current_stream = .stdout) (hc : a.cached_streams.stdout = .Present d) :
    App.requestCurrTest (fuel + 1) a fs = .found d a := by
  simp only [App.requestCurrTest]
  rw [hs, hc]

theorem request_step_stdout_unloaded (fuel : Nat) (a : App) (fs : FS)
    (hs : a.current_stream = .stdout) (hc : a.cached_streams.stdout = .Unloaded) :
    App.requestCurrTest (fuel + 1) a fs = .panicked := by
  simp only [App.requestCurrTest]
  rw [hs, hc]

/-! ## Claim C2 -/

/-- C2 (confirmed): in any session state whose stderr cache entry is
`Missing` and whose stdout entry is `Present`, `request_curr_test` returns
the stdout `TestData` without any operator command (only the stream marker
may flip to stdout); and whenever both entries are `Missing` it performs
`advance_test` — incrementing the index, resetting the stream to stderr and
clearing the cache, or ending the session — and continues at the advanced
state. -/
theorem c2_skip_forward (a : App) (fs : FS) (fuel : Nat) :
    (∀ d, a.cached_streams.stderr = .Missing → a.cached_streams.stdout = .Present d →
        App.requestCurrTest (fuel + 2) a fs =
          .found d (match a.current_stream with
                    | .stderr => { a with current_stream := .stdout }
                    | .stdout => a)) ∧
    (a.cached_streams.stderr = .Missing → a.cached_streams.stdout = .Missing →
        ∃ fuel2, fuel ≤ fuel2 ∧
          App.requestCurrTest (fuel + 2) a fs =
            (match a.advanceTest with
             | none => .exited
             | some a2 => App.requestCurrTest fuel2 a2 fs)) := by
  constructor
  · intro d h1 h2
    cases hs : a.current_stream with
    | stderr =>
      rw [show fuel + 2 = (fuel + 1) + 1 from rfl,
        request_step_stderr_missing (fuel + 1) a fs hs h1]
      exact (request_step_stdout_present fuel
        { a with current_stream := .stdout } fs d rfl h2).trans rfl
    | stdout =>
      rw [show fuel + 2 = (fuel + 1) + 1 from rfl]
      exact (request_step_stdout_present (fuel + 1) a fs d hs h2).trans rfl
  · intro h1 h2
    cases hs : a.current_stream with
    | stderr =>
      refine ⟨fuel, le_refl fuel, ?_⟩
      rw [show fuel + 2 = (fuel + 1) + 1 from rfl,
        request_step_stderr_missing (fuel + 1) a fs hs h1]
      exact (request_step_stdout_missing fuel
        { a with current_stream := .stdout } fs rfl h2).trans rfl
    | stdout =>
      refine ⟨fuel + 1, Nat.le_succ fuel, ?_⟩
      rw [show fuel + 2 = (fuel + 1) + 1 from rfl]
      exact request_step_stdout_missing (fuel + 1) a fs hs h2

namespace C2x

/-- Concrete stdout TestData for the C2 witness. -/
def d : TestData :=
  { test_code := "c"
    actual := "y"
    expect := "x"
    stream := .stdout
    test_name := "t"
    rustc_args := "TODO"
    expected_path := ⟨false, ["e"]⟩ }

/-- Session with stderr `Missing` and stdout `Present`. -/
def app : App := { cached_streams := { stderr := .Missing, stdout := .Present d } }

/-- An empty file system. -/
def fs : FS := fun _ => none

end C2x

/-- C2 witness: the skip-forward theorem on a concrete state with stderr
`Missing` and stdout `Present`. -/
theorem c2_skip_forward_witness :
    App.requestCurrTest 2 C2x.app C2x.fs =
      .found C2x.d { C2x.app with current_stream := .stdout } :=
  (c2_skip_forward C2x.app C2x.fs 0).1 C2x.d rfl rfl

/-! ## Claim C9 -/

theorem classifyStream_ne_unloaded (tc ps : String) (st : Stream) (ep : RsPath)
    (e ac : Option String) : classifyStream tc ps st ep e ac ≠ .Unloaded := by
  unfold classifyStream
  split <;> simp

theorem loadCurrData_not_unloaded (a : App) (fs : FS) (c : CachedStreams)
    (h : a.loadCurrData fs = some c) :
    c.stderr ≠ .Unloaded ∧ c.stdout ≠ .Unloaded := by
  unfold App.loadCurrData at h
  split at h
  · cases h
  · split at h
    · cases h
    · split at h
      · injection h with h
        subst h
        simp
      · injection h with h
        subst h
        exact ⟨classifyStream_ne_unloaded _ _ _ _ _ _, classifyStream_ne_unloaded _ _ _ _ _ _⟩

/-- Fuel measure bounding the recursion depth of `request_curr_test` from a
running state. -/
def App.reqMeasure (a : App) : Nat :=
  4 * (a.paths.length - a.current_test) +
    (match a.current_stream, a.cached_streams.stderr with
     | .stderr, .Unloaded => 3
     | .stderr, _ => 2
     | .stdout, _ => 1)

theorem request_terminates_aux (fuel : Nat) : ∀ (a : App) (fs : FS),
    a.current_test < a.paths.length → a.reqMeasure < fuel →
    App.requestCurrTest fuel a fs ≠ .outOfFuel := by
  induction fuel using Nat.strong_induction_on with
  | _ fuel ih =>
    intro a fs hlt hm
    cases fuel with
    | zero => omega
    | succ f =>
      cases hs : a.current_stream with
      | stderr =>
        cases hc : a.cached_streams.stderr with
        | Unloaded =>
          rw [request_step_stderr_unloaded f a fs hs hc]
          cases hl : a.loadCurrData fs with
          | none => simp
          | some c =>
            show App.requestCurrTest f { a with cached_streams := c } fs ≠ .outOfFuel
            obtain ⟨h1, _⟩ := loadCurrData_not_unloaded a fs c hl
            have ha : a.reqMeasure = 4 * (a.paths.length - a.current_test) + 3 := by
              simp [App.reqMeasure, hs, hc]
            have ha2 : App.reqMeasure { a with cached_streams := c } =
                4 * (a.paths.length - a.current_test) + 2 := by
              cases hcs : c.stderr with
              | Unloaded => exact absurd hcs h1
              | Missing => simp [App.reqMeasure, hs, hcs]
              | Present d => simp [App.reqMeasure, hs, hcs]
            exact ih f (Nat.lt_succ_self f) _ fs hlt (by omega)
        | Missing =>
          rw [request_step_stderr_missing f a fs hs hc]
          have ha : a.reqMeasure = 4 * (a.paths.length - a.current_test) + 2 := by
            simp [App.reqMeasure, hs, hc]
          have ha2 : App.reqMeasure { a with current_stream := .stdout } =
              4 * (a.paths.length - a.current_test) + 1 := by
            simp [App.reqMeasure]
          exact ih f (Nat.lt_succ_self f) _ fs hlt (by omega)
        | Present d =>
          rw [request_step_stderr_present f a fs d hs hc]
          simp
      | stdout =>
        cases hc : a.cached_streams.stdout with
        | Unloaded =>
          rw [request_step_stdout_unloaded f a fs hs hc]
          simp
        | Present d =>
          rw [request_step_stdout_present f a fs d hs hc]
          simp
        | Missing =>
          rw [request_step_stdout_missing f a fs hs hc]
          rw [advanceTest_eq]
          by_cases hend : a.current_test + 1 = a.paths.length
          · rw [if_pos hend]
            simp
          · rw [if_neg hend]
            show App.requestCurrTest f _ fs ≠ .outOfFuel
            have ha : a.reqMeasure = 4 * (a.paths.length - a.current_test) + 1 := by
              simp [App.reqMeasure, hs]
            have ha2 : App.reqMeasure
                { a with current_stream := .stderr, current_test := a.current_test + 1,
                         cached_streams := {}, scroll_pos_diff := 0, scroll_pos_code := 0 } =
                4 * (a.paths.length - (a.current_test + 1)) + 3 := by
              simp [App.reqMeasure]
            refine ih f (Nat.lt_succ_self f) _ fs ?_ ?_
            · show a.current_test + 1 < a.paths.length
              omega
            · rw [ha2]
              omega

/-- C9 (confirmed): `request_curr_test` terminates from every running
session state — with fuel exceeding the explicit measure (which strictly
decreases at every recursive step: loading moves the entry out of
`Unloaded`, a stderr skip moves to stdout, a stdout skip advances the test
index) the model never exhausts its fuel, so the recursion depth is bounded
and the call returns a result (data, exit, or panic). -/
theorem c9_request_terminates (a : App) (fs : FS)
    (h : a.current_test < a.paths.length) :
    App.requestCurrTest (a.reqMeasure + 1) a fs ≠ .outOfFuel :=
  request_terminates_aux (a.reqMeasure + 1) a fs h (Nat.lt_succ_self _)

namespace C9x

/-- Concrete session for C9: one failing test, nothing loaded. -/
def app : App := { paths := ["tests/a.rs"] }

/-- An empty file system. -/
def fs : FS := fun _ => none

end C9x

/-- C9 witness: termination of the request on a concrete one-test session. -/
theorem c9_request_terminates_witness :
    App.requestCurrTest (C9x.app.reqMeasure + 1) C9x.app C9x.fs ≠ .outOfFuel :=
  c9_request_terminates C9x.app C9x.fs (by decide)

/-! ## Path lemmas for the bless round trip -/

theorem splitAtChar_ne_nil (sep : Char) (cs : List Char) : splitAtChar sep cs ≠ [] := by
  cases cs with
  | nil => simp [splitAtChar]
  | cons c rest =>
    unfold splitAtChar
    by_cases h : c = sep
    · simp [h]
    · rw [if_neg h]
      split <;> simp

theorem splitAtChar_not_mem (sep : Char) (cs : List Char) :
    ∀ l ∈ splitAtChar sep cs, sep ∉ l := by
  induction cs with
  | nil =>
    intro l hl
    simp [splitAtChar] at hl
    simp [hl]
  | cons c rest ih =>
    intro l hl
    unfold splitAtChar at hl
    by_cases h : c = sep
    · rw [if_pos h] at hl
      rcases List.mem_cons.mp hl with h1 | h1
      · simp [h1]
      · exact ih l h1
    · rw [if_neg h] at hl
      cases hsp : splitAtChar sep rest with
      | nil => exact absurd hsp (splitAtChar_ne_nil sep rest)
      | cons hd tl =>
        rw [hsp] at hl
        rcases List.mem_cons.mp hl with h1 | h1
        · subst h1
          intro hmem
          rcases List.mem_cons.mp hmem with h2 | h2
          · exact h h2.symm
          · exact ih hd (by rw [hsp]; exact List.mem_cons_self hd tl) h2
        · exact ih l (by rw [hsp]; exact List.mem_cons_of_mem hd h1)

theorem joinWithChar_splitAtChar (sep : Char) (cs : List Char) :
    joinWithChar sep (splitAtChar sep cs) = cs := by
  induction cs with
  | nil => rfl
  | cons c rest ih =>
    unfold splitAtChar
    by_cases h : c = sep
    · rw [if_pos h]
      cases hsp : splitAtChar sep rest with
      | nil => exact absurd hsp (splitAtChar_ne_nil sep rest)
      | cons hd tl =>
        show joinWithChar sep ([] :: hd :: tl) = c :: rest
        unfold joinWithChar
        rw [hsp] at ih
        show sep :: joinWithChar sep (hd :: tl) = c :: rest
        rw [ih, h]
    · rw [if_neg h]
      cases hsp : splitAtChar sep rest with
      | nil => exact absurd hsp (splitAtChar_ne_nil sep rest)
      | cons hd tl =>
        rw [hsp] at ih
        cases tl with
        | nil =>
          show c :: hd = c :: rest
          unfold joinWithChar at ih
          rw [ih]
        | cons hd2 tl2 =>
          show joinWithChar sep ((c :: hd) :: hd2 :: tl2) = c :: rest
          unfold joinWithChar
          unfold joinWithChar at ih
          rw [← ih]
          rfl

theorem head?_append_cons {α : Type} (l : List α) (c : α) (xs ys : List α) :
    (l ++ c :: xs).head? = (l ++ c :: ys).head? := by
  cases l <;> rfl

theorem stemOf_head (n : String) : (stemOf n).data.head? = n.data.head? := by
  simp only [stemOf]
  split
  · rfl
  · split
    · rfl
    · next hlen hdot =>
      have hjoin : joinWithChar '.' (splitAtChar '.' n.data) = n.data :=
        joinWithChar_splitAtChar '.' n.data
      rcases hsp : splitAtChar '.' n.data with _ | ⟨p0, _ | ⟨p1, t⟩⟩
      · exact absurd hsp (splitAtChar_ne_nil '.' n.data)
      · rw [hsp] at hlen
        simp at hlen
      · rw [hsp] at hjoin
        show (joinWithChar '.' ((p0 :: p1 :: t).dropLast)).head? = n.data.head?
        rw [List.dropLast_cons₂]
        cases t with
        | nil =>
          have hp0 : p0 ≠ [] := by
            intro hcon
            rw [hsp] at hdot
            exact hdot ⟨by simp [hcon], by simp⟩
          show (joinWithChar '.' [p0]).head? = n.data.head?
          rw [← hjoin]
          show p0.head? = (p0 ++ '.' :: joinWithChar '.' [p1]).head?
          cases p0 with
          | nil => exact absurd rfl hp0
          | cons a l => rfl
        | cons t0 ts =>
          rw [← hjoin]
          show (joinWithChar '.' (p0 :: (p1 :: t0 :: ts).dropLast)).head? =
            (p0 ++ '.' :: joinWithChar '.' (p1 :: t0 :: ts)).head?
          rcases hdl : (p1 :: t0 :: ts).dropLast with _ | ⟨q, qs⟩
          · simp [List.dropLast_cons₂] at hdl
          · show (p0 ++ '.' :: joinWithChar '.' (q :: qs)).head? =
              (p0 ++ '.' :: joinWithChar '.' (p1 :: t0 :: ts)).head?
            exact head?_append_cons p0 '.' _ _

theorem parsePath_comps_no_slash (s : String) :
    ∀ c ∈ (parsePath s).comps, '/' ∉ c.data := by
  have key : ∀ x : String,
      x ∈ ((splitAtChar '/' s.data).map (fun l => String.mk l)).filter (fun y => y ≠ "") →
      '/' ∉ x.data := by
    intro x hx
    obtain ⟨l, hl, hql⟩ := List.mem_map.mp (List.mem_of_mem_filter hx)
    rw [← hql]
    exact splitAtChar_not_mem '/' s.data l hl
  intro c hc
  unfold parsePath at hc
  simp only [] at hc
  rcases hraw : ((splitAtChar '/' s.data).map (fun l => String.mk l)).filter
      (fun y => y ≠ "") with _ | ⟨r0, rs⟩
  · rw [hraw] at hc
    simp at hc
  · rw [hraw] at hc
    simp only [] at hc
    by_cases hdot : r0 = "."
    · rw [if_pos hdot] at hc
      rcases List.mem_append.mp hc with h1 | h1
      · simp at h1
        subst h1
        decide
      · exact key c (by
          rw [hraw]
          exact List.mem_cons_of_mem r0 (List.mem_of_mem_filter h1))
    · rw [if_neg hdot] at hc
      rcases List.mem_append.mp hc with h1 | h1
      · simp at h1
        rw [h1]
        exact key r0 (by rw [hraw]; exact List.mem_cons_self r0 rs)
      · exact key c (by
          rw [hraw]
          exact List.mem_cons_of_mem r0 (List.mem_of_mem_filter h1))

theorem parsePath_isAbs_false (s : String) (h : s.data.head? ≠ some '/') :
    (parsePath s).isAbs = false := by
  unfold parsePath
  simp only []
  cases hd : s.data with
  | nil => rfl
  | cons c cs =>
    rw [hd] at h
    have hc : c ≠ '/' := by
      intro hcon
      exact h (by rw [hcon]; rfl)
    split
    · next heq =>
      injection heq with h1 _
      exact absurd h1 hc
    · rfl

theorem joinP_rel (a b : RsPath) (h : b.isAbs = false) :
    a.joinP b = ⟨a.isAbs, a.comps ++ b.comps⟩ := by
  unfold RsPath.joinP
  rw [h]
  rfl

theorem withExtension_comps (q : RsPath) (n : String) (ext : String)
    (hn : q.fileName = some n) :
    q.withExtension ext =
      ⟨q.isAbs, q.comps.dropLast ++ [stemOf n ++ (if ext = "" then "" else "." ++ ext)]⟩ := by
  unfold RsPath.withExtension
  rw [hn]

theorem stripTests_some (p t : RsPath) (h : p.stripTests = some t) :
    p.isAbs = false ∧ t.isAbs = false ∧ p.comps = "tests" :: t.comps := by
  unfold RsPath.stripTests at h
  split at h
  · cases h
  · next habs =>
    split at h
    · next rest heq =>
      injection h with h
      subst h
      exact ⟨by simpa using habs, rfl, heq⟩
    · cases h

theorem fileStem_some (p : RsPath) (s : String) (h : p.fileStem = some s) :
    ∃ n, p.comps.getLast? = some n ∧ ¬(n = "." ∨ n = "..") ∧ s = stemOf n := by
  unfold RsPath.fileStem at h
  split at h
  · cases h
  · next n hn =>
    injection h with h
    unfold RsPath.fileName at hn
    split at hn
    · cases hn
    · next c hc =>
      split at hn
      · cases hn
      · next hdot =>
        injection hn with hn
        subst hn
        exact ⟨c, hc, hdot, h.symm⟩

theorem getLast?_mem_self {α : Type} (l : List α) (a : α) (h : l.getLast? = some a) :
    a ∈ l := by
  obtain ⟨hne, heq⟩ := List.mem_getLast?_eq_getLast (show a ∈ l.getLast? by rw [h]; rfl)
  rw [heq]
  exact List.getLast_mem hne

theorem withExtension_build_shape (q : RsPath) (ext : String) (xs t : List String)
    (hq : q.comps = xs ++ "build" :: t) (ht : t ≠ []) :
    ∃ t2, (q.withExtension ext).comps = xs ++ "build" :: t2 ∧ t2 ≠ [] := by
  unfold RsPath.withExtension
  cases hf : q.fileName with
  | none => exact ⟨t, hq, ht⟩
  | some name =>
    rcases t with _ | ⟨t0, ts⟩
    · exact absurd rfl ht
    · refine ⟨(t0 :: ts).dropLast ++ [stemOf name ++ (if ext = "" then "" else "." ++ ext)],
        ?_, by simp⟩
      show q.comps.dropLast ++ _ = _
      rw [hq, List.dropLast_append_cons, List.dropLast_cons₂]
      simp

theorem joinP_build_shape (q r : RsPath) (hr : r.isAbs = false) (xs t : List String)
    (hq : q.comps = xs ++ "build" :: t) :
    (q.joinP r).comps = xs ++ "build" :: (t ++ r.comps) := by
  rw [joinP_rel q r hr]
  show q.comps ++ r.comps = _
  rw [hq]
  simp

theorem expected_path_eq (rust p : RsPath) (n : String) (ext : String) (tc : List String)
    (hp : p.isAbs = false) (hpc : p.comps = "tests" :: tc)
    (hlast : p.comps.getLast? = some n) (hdot : ¬(n = "." ∨ n = "..")) :
    (rust.joinP p).withExtension ext =
      ⟨rust.isAbs, rust.comps ++ (("tests" :: tc).dropLast ++
        [stemOf n ++ (if ext = "" then "" else "." ++ ext)])⟩ := by
  have hj : rust.joinP p = ⟨rust.isAbs, rust.comps ++ p.comps⟩ := joinP_rel rust p hp
  have hfn : (rust.joinP p).fileName = some n := by
    rw [hj]
    show (match (rust.comps ++ p.comps).getLast? with
      | none => none
      | some c => if c = "." ∨ c = ".." then none else some c) = some n
    rw [List.getLast?_append_of_ne_nil rust.comps (by rw [hpc]; simp), hlast]
    simp [hdot]
  rw [withExtension_comps _ n ext hfn, hj]
  simp only []
  rw [hpc, List.dropLast_append_cons]
  simp [List.append_assoc]

theorem actual_path_shape (rust target : RsPath) (stem : String) (ext : String)
    (htabs : target.isAbs = false) (hstemAbs : (parsePath stem).isAbs = false) :
    ∃ tA, (((((rust.joinP (parsePath "build/x86_64-unknown-linux-gnu/test")).joinP
        target).withExtension "").joinP (parsePath stem)).withExtension ext).comps =
      rust.comps ++ "build" :: tA := by
  have hb : parsePath "build/x86_64-unknown-linux-gnu/test" =
      ⟨false, ["build", "x86_64-unknown-linux-gnu", "test"]⟩ := by decide
  have h0 : (rust.joinP (parsePath "build/x86_64-unknown-linux-gnu/test")).comps =
      rust.comps ++ "build" :: ["x86_64-unknown-linux-gnu", "test"] := by
    rw [hb, joinP_rel _ _ rfl]
  have h1 := joinP_build_shape _ target htabs rust.comps _ h0
  obtain ⟨t2, h2c, h2ne⟩ :=
    withExtension_build_shape _ "" rust.comps _ h1 (by simp)
  have h3 := joinP_build_shape _ (parsePath stem) hstemAbs rust.comps t2 h2c
  obtain ⟨t4, h4c, _⟩ :=
    withExtension_build_shape _ ext rust.comps _ h3
      (by
        intro hcon
        exact h2ne (List.append_eq_nil.mp hcon).1)
  exact ⟨t4, h4c⟩

theorem expected_ne_actual (rust p target : RsPath) (n : String) (ext : String)
    (hp : p.isAbs = false) (hpc : p.comps = "tests" :: target.comps)
    (htabs : target.isAbs = false)
    (hlast : p.comps.getLast? = some n) (hdot : ¬(n = "." ∨ n = ".."))
    (hstemAbs : (parsePath (stemOf n)).isAbs = false)
    (hne1 : stemOf "tests" ++ (if ext = "" then "" else "." ++ ext) ≠ "build") :
    (rust.joinP p).withExtension ext ≠
      ((((rust.joinP (parsePath "build/x86_64-unknown-linux-gnu/test")).joinP
          target).withExtension "").joinP (parsePath (stemOf n))).withExtension ext := by
  obtain ⟨tA, hA⟩ := actual_path_shape rust target (stemOf n) ext htabs hstemAbs
  rw [expected_path_eq rust p n ext target.comps hp hpc hlast hdot]
  intro hcon
  have hcomps := congrArg RsPath.comps hcon
  simp only [] at hcomps
  rw [hA] at hcomps
  have hcc := List.append_cancel_left hcomps
  cases htc : target.comps with
  | nil =>
    have hn : n = "tests" := by
      rw [hpc, htc] at hlast
      simpa using hlast.symm
    subst hn
    rw [htc] at hcc
    simp only [List.dropLast_single, List.nil_append] at hcc
    injection hcc with h1 _
    exact absurd h1 hne1
  | cons c0 cr =>
    rw [htc, List.dropLast_cons₂] at hcc
    simp only [List.cons_append] at hcc
    injection hcc with h1 _
    exact absurd h1 (by decide)

theorem resolvePaths_disjoint (rust : RsPath) (ps : String) (lp : LoadPaths)
    (h : resolvePaths rust ps = some lp) :
    lp.expected_stderr_path ≠ lp.actual_stderr_path ∧
    lp.expected_stdout_path ≠ lp.actual_stdout_path := by
  unfold resolvePaths at h
  cases hstrip : (parsePath ps).stripTests with
  | none => simp only [hstrip] at h; cases h
  | some target =>
    simp only [hstrip] at h
    cases hstem : (parsePath ps).fileStem with
    | none => simp only [hstem] at h; cases h
    | some stem =>
      simp only [hstem] at h
      injection h with h
      subst h
      obtain ⟨hpabs, htabs, hpc⟩ := stripTests_some _ _ hstrip
      obtain ⟨n, hlast, hdot, hstemEq⟩ := fileStem_some _ _ hstem
      subst hstemEq
      have hnoslash : '/' ∉ n.data :=
        parsePath_comps_no_slash ps n (getLast?_mem_self _ n hlast)
      have hhead : n.data.head? ≠ some '/' := by
        intro hcon
        exact hnoslash (List.mem_of_mem_head? (by rw [hcon]; rfl))
      have hstemAbs : (parsePath (stemOf n)).isAbs = false := by
        apply parsePath_isAbs_false
        rw [stemOf_head]
        exact hhead
      exact ⟨expected_ne_actual rust (parsePath ps) target n "stderr"
          hpabs hpc htabs hlast hdot hstemAbs (by decide),
        expected_ne_actual rust (parsePath ps) target n "stdout"
          hpabs hpc htabs hlast hdot hstemAbs (by decide)⟩

/-! ## Claim C4 -/

theorem classifyStream_some_expected (tc ps : String) (st : Stream) (ep : RsPath)
    (v : String) (ac : Option String) :
    classifyStream tc ps st ep (some v) ac =
      .Present { test_code := tc, actual := ac.getD "", expect := v, stream := st,
                 test_name := ps, rustc_args := "TODO", expected_path := ep } := by
  unfold classifyStream
  rw [if_pos (Or.inl (by simp))]
  rfl

/-- C4 (confirmed): blessing a `Present` (test, stream) entry — overwriting
the recorded expected-output path with the actual text — and reloading the
same test yields for that stream a `TestData` whose `expect` equals its
`actual`: the bless write is a fixed point of the loader's classification. -/
theorem c4_bless_fixed_point (a : App) (fs : FS) (cache : CachedStreams)
    (hload : a.loadCurrData fs = some cache) :
    (∀ d, cache.stderr = .Present d →
        ∃ cache2 d2, a.loadCurrData (FS.write fs d.expected_path d.actual) = some cache2 ∧
          cache2.stderr = .Present d2 ∧ d2.expect = d2.actual) ∧
    (∀ d, cache.stdout = .Present d →
        ∃ cache2 d2, a.loadCurrData (FS.write fs d.expected_path d.actual) = some cache2 ∧
          cache2.stdout = .Present d2 ∧ d2.expect = d2.actual) := by
  unfold App.loadCurrData at hload
  split at hload
  · cases hload
  next ps hget =>
    split at hload
    · cases hload
    next lp hres =>
      obtain ⟨hd1, hd2⟩ := resolvePaths_disjoint a.rust_path ps lp hres
      split at hload
      · injection hload with hload
        subst hload
        constructor <;> (intro d hd; cases hd)
      next tc hsrc =>
        injection hload with hload
        subst hload
        constructor
        · intro d hd
          obtain ⟨he, ha, hep, _⟩ := classifyStream_present_eq _ _ _ _ _ _ d hd
          rw [hep]
          unfold App.loadCurrData
          simp only [hget, hres]
          obtain ⟨tc2, hsrc2⟩ :
              ∃ v, (FS.write fs lp.expected_stderr_path d.actual) lp.test_code_path = some v := by
            unfold FS.write
            by_cases hq : lp.test_code_path = lp.expected_stderr_path
            · rw [if_pos hq]
              exact ⟨_, rfl⟩
            · rw [if_neg hq]
              exact ⟨tc, hsrc⟩
          simp only [hsrc2]
          have hexp : (FS.write fs lp.expected_stderr_path d.actual) lp.expected_stderr_path =
              some d.actual := by
            unfold FS.write
            rw [if_pos rfl]
          have hact : (FS.write fs lp.expected_stderr_path d.actual) lp.actual_stderr_path =
              fs lp.actual_stderr_path := by
            unfold FS.write
            rw [if_neg (Ne.symm hd1)]
          refine ⟨_,
            { test_code := tc2, actual := (fs lp.actual_stderr_path).getD "",
              expect := d.actual, stream := .stderr, test_name := ps,
              rustc_args := "TODO", expected_path := lp.expected_stderr_path },
            rfl, ?_, ?_⟩
          · show classifyStream tc2 ps .stderr lp.expected_stderr_path
              ((FS.write fs lp.expected_stderr_path d.actual) lp.expected_stderr_path)
              ((FS.write fs lp.expected_stderr_path d.actual) lp.actual_stderr_path) = _
            rw [hexp, hact, classifyStream_some_expected]
          · exact ha
        · intro d hd
          obtain ⟨he, ha, hep, _⟩ := classifyStream_present_eq _ _ _ _ _ _ d hd
          rw [hep]
          unfold App.loadCurrData
          simp only [hget, hres]
          obtain ⟨tc2, hsrc2⟩ :
              ∃ v, (FS.write fs lp.expected_stdout_path d.actual) lp.test_code_path = some v := by
            unfold FS.write
            by_cases hq : lp.test_code_path = lp.expected_stdout_path
            · rw [if_pos hq]
              exact ⟨_, rfl⟩
            · rw [if_neg hq]
              exact ⟨tc, hsrc⟩
          simp only [hsrc2]
          have hexp : (FS.write fs lp.expected_stdout_path d.actual) lp.expected_stdout_path =
              some d.actual := by
            unfold FS.write
            rw [if_pos rfl]
          have hact : (FS.write fs lp.expected_stdout_path d.actual) lp.actual_stdout_path =
              fs lp.actual_stdout_path := by
            unfold FS.write
            rw [if_neg (Ne.symm hd2)]
          refine ⟨_,
            { test_code := tc2, actual := (fs lp.actual_stdout_path).getD "",
              expect := d.actual, stream := .stdout, test_name := ps,
              rustc_args := "TODO", expected_path := lp.expected_stdout_path },
            rfl, ?_, ?_⟩
          · show classifyStream tc2 ps .stdout lp.expected_stdout_path
              ((FS.write fs lp.expected_stdout_path d.actual) lp.expected_stdout_path)
              ((FS.write fs lp.expected_stdout_path d.actual) lp.actual_stdout_path) = _
            rw [hexp, hact, classifyStream_some_expected]
          · exact ha

namespace C4x

/-- Concrete session for C4: one failing UI test. -/
def app : App := { paths := ["tests/ui/foo.rs"] }

/-- File system: readable source, no expected stderr, actual stderr `out`. -/
def fs : FS := fun p =>
  if p.comps.getLast? = some "foo.rs" then some "code"
  else if p.comps = ["home", "ardi", "repos", "rust", "build", "x86_64-unknown-linux-gnu",
      "test", "ui", "foo", "foo.stderr"] then some "out"
  else none

/-- The stderr TestData the loader builds for this run. -/
def d : TestData :=
  { test_code := "code"
    actual := "out"
    expect := ""
    stream := .stderr
    test_name := "tests/ui/foo.rs"
    rustc_args := "TODO"
    expected_path := ⟨true, ["home", "ardi", "repos", "rust", "tests", "ui", "foo.stderr"]⟩ }

/-- The cache the loader computes for this run. -/
def cache : CachedStreams := { stderr := .Present d, stdout := .Missing }

end C4x

/-- C4 witness: the bless fixed-point theorem on the concrete run of
`tests/ui/foo.rs` whose stderr stream is `Present`. -/
theorem c4_bless_fixed_point_witness :
    ∃ cache2 d2,
      C4x.app.loadCurrData (FS.write C4x.fs C4x.d.expected_path C4x.d.actual) = some cache2 ∧
      cache2.stderr = .Present d2 ∧ d2.expect = d2.actual :=
  (c4_bless_fixed_point C4x.app C4x.fs C4x.cache rfl).1 C4x.d rfl

end CompiletestDiffer
